import Mathlib

/-!
Verification development for the brytongo GPX-to-Bryton converter.

The Go sources are shallowly embedded: machine integers become `Int`/`Nat`
with explicit two's-complement reduction where the code converts between
widths, byte buffers become `List Nat` (each entry one byte), file output
becomes an explicit file-system state, and the IEEE-754 float64 arithmetic
of `adjustGeoCoordinates` is modelled exactly by dyadic rationals
(integer mantissa and exponent) with round-to-nearest-even.

Two encoder variants exist in the repository: the package variant
(little-endian, explicit constant flag) and the historical `main` variant
(big-endian raw struct write).  Both are embedded; `LE`-suffixed and
unsuffixed definitions follow the package variant, `BE`-suffixed ones the
historical variant.
-/

namespace Brytongo

/-- GeoPoint used by the bryton device: `lat` and `lon` are Go `int32`
values (fixed-point degrees times one million). -/
structure GeoPoint where
  lat : Int
  lon : Int
deriving DecidableEq, Repr

/-- Predicate: an `Int` is inside the Go `int32` range. -/
def isInt32 (v : Int) : Prop := -2147483648 ≤ v ∧ v < 2147483648

instance (v : Int) : Decidable (isInt32 v) := by
  unfold isInt32; infer_instance

/-- Little-endian byte serialization of a Go `int32`, exactly what
`binary.Write(buf, binary.LittleEndian, v)` emits for an `int32`. -/
def int32ToLE (v : Int) : List Nat :=
  let n := (v % 4294967296).toNat
  [n % 256, n / 256 % 256, n / 65536 % 256, n / 16777216 % 256]

/-- Big-endian byte serialization of a Go `int32`. -/
def int32ToBE (v : Int) : List Nat := (int32ToLE v).reverse

/-- Little-endian byte serialization of a Go `int16`. -/
def int16ToLE (v : Int) : List Nat :=
  let n := (v % 65536).toNat
  [n % 256, n / 256 % 256]

/-- Big-endian byte serialization of a Go `int16`. -/
def int16ToBE (v : Int) : List Nat := (int16ToLE v).reverse

/-- Little-endian byte serialization of a Go `uint16`. -/
def uint16ToLE (v : Nat) : List Nat :=
  [v % 256, v / 256 % 256]

/-- Little-endian byte serialization of a Go `uint8` (one byte). -/
def uint8Byte (v : Nat) : List Nat := [v % 256]

/-- Reads four little-endian bytes back into a signed 32-bit integer.
Modelled from the spec: the repository has no decoder, the spec round-trip
property defines decoding as reading each 4-byte group as the
two's-complement little-endian integer it was written from. -/
def int32OfLE (b0 b1 b2 b3 : Nat) : Int :=
  let u := b0 + 256 * b1 + 65536 * b2 + 16777216 * b3
  if u < 2147483648 then (u : Int) else (u : Int) - 4294967296

/-- BrytonSmy: content and layout of the .smy bryton file.  Fields are Go
`int16`/`int32` values, kept as `Int` here. -/
structure BrytonSmy where
  smyFlag : Int
  coordinateCount : Int
  bboxLatNe : Int
  bboxLatSw : Int
  bboxLonNe : Int
  bboxLonSw : Int
  totalDst : Int
deriving DecidableEq, Repr

/-- BrytonTrack: content of the .track bryton file. -/
abbrev BrytonTrack := List GeoPoint

/-- Waypoint entry used by the Bryton device.  `waypointDescription` embeds
the Go `[32]uint8` array as a list of bytes (length 32 by construction). -/
structure Waypoint where
  coordinateIndex : Nat
  directionCode : Nat
  distance : Nat
  timeSec : Nat
  waypointDescription : List Nat
deriving DecidableEq, Repr

/-- BrytonTinfo: content of the .tinfo bryton file. -/
abbrev BrytonTinfo := List Waypoint

/-- BrytonData binds the three files required for navigation. -/
structure BrytonData where
  smy : BrytonSmy
  track : BrytonTrack
  tinfo : BrytonTinfo
deriving DecidableEq, Repr

/-- Byte buffer the package variant of `BrytonSmy.Export` builds: the
constant `int16(0x01)` flag then each field, all little-endian. -/
def BrytonSmy.exportBytes (s : BrytonSmy) : List Nat :=
  int16ToLE 1 ++ int16ToLE s.coordinateCount ++
    int32ToLE s.bboxLatNe ++ int32ToLE s.bboxLatSw ++
    int32ToLE s.bboxLonNe ++ int32ToLE s.bboxLonSw ++ int32ToLE s.totalDst

/-- Byte buffer the historical `main` variant of `BrytonSmy.Export` builds:
`binary.Write(buf, binary.BigEndian, s)` serializes the struct fields in
declaration order, big-endian, including the stored `smyFlag`. -/
def BrytonSmy.exportBytesBE (s : BrytonSmy) : List Nat :=
  int16ToBE s.smyFlag ++ int16ToBE s.coordinateCount ++
    int32ToBE s.bboxLatNe ++ int32ToBE s.bboxLatSw ++
    int32ToBE s.bboxLonNe ++ int32ToBE s.bboxLonSw ++ int32ToBE s.totalDst

/-- One .track record of the package variant: 4 bytes latitude, 4 bytes
longitude (little-endian), then the 8 reserved zero bytes of `uint64(0)`. -/
def encodeTrackPoint (p : GeoPoint) : List Nat :=
  int32ToLE p.lat ++ int32ToLE p.lon ++ [0, 0, 0, 0, 0, 0, 0, 0]

/-- One .track record of the historical big-endian variant. -/
def encodeTrackPointBE (p : GeoPoint) : List Nat :=
  int32ToBE p.lat ++ int32ToBE p.lon ++ [0, 0, 0, 0, 0, 0, 0, 0]

/-- Byte buffer `BrytonTrack.Export` (package variant) builds: each point
in sequence order, 16 bytes per point, no header or footer. -/
def BrytonTrack.exportBytes (t : BrytonTrack) : List Nat :=
  t.flatMap encodeTrackPoint

/-- Byte buffer of the historical big-endian `BrytonTrack.Export`. -/
def BrytonTrack.exportBytesBE (t : BrytonTrack) : List Nat :=
  t.flatMap encodeTrackPointBE

/-- Decoder for .track buffers.  Modelled from the spec: read consecutive
16-byte records, the first 4 bytes the latitude, the next 4 the longitude
(little-endian two's complement), the last 8 reserved. -/
def trackDecode : List Nat → List GeoPoint
  | b0 :: b1 :: b2 :: b3 :: c0 :: c1 :: c2 :: c3 ::
      _ :: _ :: _ :: _ :: _ :: _ :: _ :: _ :: rest =>
    ⟨int32OfLE b0 b1 b2 b3, int32OfLE c0 c1 c2 c3⟩ :: trackDecode rest
  | _ => []

/-- One .tinfo record of the package variant: coordinate index (2 bytes),
direction code (1 byte), 1 reserved zero byte, distance (2 bytes),
2 reserved zero bytes, time (2 bytes), 2 reserved zero bytes, then the
32 description bytes written verbatim. -/
def encodeWaypoint (w : Waypoint) : List Nat :=
  uint16ToLE w.coordinateIndex ++ uint8Byte w.directionCode ++ [0] ++
    uint16ToLE w.distance ++ [0, 0] ++ uint16ToLE w.timeSec ++ [0, 0] ++
    w.waypointDescription

/-- Byte buffer `BrytonTinfo.Export` (package variant) builds. -/
def BrytonTinfo.exportBytes (t : BrytonTinfo) : List Nat :=
  t.flatMap encodeWaypoint

/-- Effect of Go `copy(wpt.waypointDescription[:], w.Name)` on the
zero-valued `[32]uint8` array: the first `min 32 (length name)` bytes of
the name, the remaining positions zero. -/
def mkDescription (name : List Nat) : List Nat :=
  name.take 32 ++ List.replicate (32 - name.length) 0

/-- Direction-code constants used by the Bryton device. -/
def DirectionCodeCloseLeft : Nat := 0x07

/-- Direction code for a plain left turn. -/
def DirectionCodeLeft : Nat := 0x03

/-- Direction code for a slight left turn. -/
def DirectionCodeSlightLeft : Nat := 0x05

/-- Direction code for going ahead (also the default). -/
def DirectionCodeGoAhead : Nat := 0x01

/-- Direction code for a slight right turn. -/
def DirectionCodeSlightRight : Nat := 0x04

/-- Direction code for a plain right turn. -/
def DirectionCodeRight : Nat := 0x02

/-- Direction code for a close right turn. -/
def DirectionCodeCloseRight : Nat := 0x06

/-- Go `convertDirectionCode`: switch over the marker string, defaulting
to go-ahead for unsupported markers (logged, not an error). -/
def convertDirectionCode (gpxDirCode : String) : Nat :=
  if gpxDirCode = "tshl" then DirectionCodeCloseLeft
  else if gpxDirCode = "left" then DirectionCodeLeft
  else if gpxDirCode = "tsll" then DirectionCodeSlightLeft
  else if gpxDirCode = "straight" then DirectionCodeGoAhead
  else if gpxDirCode = "tslr" then DirectionCodeSlightRight
  else if gpxDirCode = "right" then DirectionCodeRight
  else if gpxDirCode = "tshr" then DirectionCodeCloseRight
  else DirectionCodeGoAhead

/-- Lower-casing of one character, as Go `strings.ToLower` acts on ASCII
letters (the only letters appearing in the recognized markers). -/
def lowerChar (c : Char) : Char :=
  if 'A' ≤ c ∧ c ≤ 'Z' then Char.ofNat (c.toNat + 32) else c

/-- Go `strings.ToLower` on a marker string: each character lowered. -/
def lowerString (s : String) : String :=
  ⟨s.data.map lowerChar⟩

/-- The direction-marker mapping as invoked by `ImportGpx`: the symbol is
passed through `strings.ToLower` before the switch. -/
def mapDirection (marker : String) : Nat :=
  convertDirectionCode (lowerString marker)

/-- Go `BrytonTrack.getCoordinateIndex` loop: linear scan, returning
`uint16(i)` at the first exact match, `uint16(0)` when no entry matches.
The accumulator `i` is the Go `int` loop index; the result carries the
`uint16` conversion, hence the reduction modulo 65536. -/
def getCoordinateIndexAux (point : GeoPoint) : Nat → List GeoPoint → Nat
  | _, [] => 0
  | i, entry :: rest =>
    if entry = point then i % 65536 else getCoordinateIndexAux point (i + 1) rest

/-- Go `BrytonTrack.getCoordinateIndex`: scan from index zero. -/
def BrytonTrack.getCoordinateIndex (t : BrytonTrack) (point : GeoPoint) : Nat :=
  getCoordinateIndexAux point 0 t

/-- Go `adjustFilename`: strip everything from the first period and append
the extension (`strings.Split(in, ".")[0]` is the prefix of the name up to
the first period). -/
def adjustFilename (input : String) (extension : String) : String :=
  ⟨input.data.takeWhile (fun c => c ≠ '.')⟩ ++ extension

/-! ### Exact model of Go float64 arithmetic

`adjustGeoCoordinates` multiplies a float64 by `1000000.0` and converts the
product to `int32`.  Finite float64 values are dyadic rationals
`m * 2 ^ e`; the multiplication rounds the exact rational product to 53
significant bits with round-to-nearest, ties-to-even, and the conversion
truncates toward zero.  The model below implements that arithmetic exactly
over `Nat`/`Int` (no `Float`), with a fuel-based binary logarithm so every
definition evaluates inside the kernel. -/

/-- Binary logarithm with explicit fuel (structural recursion, so concrete
values reduce by `decide`).  Agrees with `Nat.log2` when the fuel is at
least the argument. -/
def log2Aux : Nat → Nat → Nat
  | 0, _ => 0
  | fuel + 1, n => if n < 2 then 0 else log2Aux fuel (n / 2) + 1

/-- Binary logarithm, `log2F n = Nat.log2 n`, kernel-computable. -/
def log2F (n : Nat) : Nat := log2Aux n n

/-- A finite float64 value, exactly `m * 2 ^ e` (mantissa and binary
exponent).  Results of rounding keep `|m|` below `2 ^ 53`. -/
structure F64 where
  m : Int
  e : Int
deriving DecidableEq, Repr

/-- The exact rational value of a float64. -/
def F64.toRat (x : F64) : ℚ := (x.m : ℚ) * 2 ^ x.e

/-- Whether `a * 2 ^ k` is at least `c`, for an integer shift `k`. -/
def shiftGe (a : Nat) (k : Int) (c : Nat) : Bool :=
  if 0 ≤ k then decide (c ≤ a * 2 ^ k.toNat) else decide (c * 2 ^ (-k).toNat ≤ a)

/-- The scaling exponent used when rounding `a / b` (both positive) to 53
bits: the unique `k` with `2 ^ 52 * b ≤ a * 2 ^ k < 2 ^ 53 * b`, found among
the two candidates that the integer binary logarithms leave open. -/
def findExp (a b : Nat) : Int :=
  let d : Int := (log2F a : Int) - (log2F b : Int)
  if shiftGe a (52 - d) (4503599627370496 * b) then 52 - d else 53 - d

/-- The fraction `a / b` scaled by `2 ^ k`, as a numerator-denominator pair
of naturals. -/
def scaledPair (a b : Nat) (k : Int) : Nat × Nat :=
  if 0 ≤ k then (a * 2 ^ k.toNat, b) else (a, b * 2 ^ (-k).toNat)

/-- Rounds `a / b * 2 ^ k` to the nearest integer, ties to even. -/
def roundMantissa (a b : Nat) (k : Int) : Nat :=
  let p := scaledPair a b k
  let q := p.1 / p.2
  let r := p.1 % p.2
  if 2 * r < p.2 then q
  else if p.2 < 2 * r then q + 1
  else if q % 2 = 0 then q else q + 1

/-- Rounds the positive rational `a / b` to the nearest float64
(round-to-nearest, ties-to-even), returned as mantissa and exponent. -/
def roundPosRat (a b : Nat) : F64 :=
  if a = 0 then ⟨0, 0⟩
  else
    let k := findExp a b
    let m := roundMantissa a b k
    if m = 9007199254740992 then ⟨4503599627370496, -(k - 1)⟩ else ⟨(m : Int), -k⟩

/-- Rounds the rational `num / den` (`den` positive) to the nearest
float64. -/
def roundRat (num : Int) (den : Nat) : F64 :=
  if 0 ≤ num then roundPosRat num.toNat den
  else
    let f := roundPosRat (-num).toNat den
    ⟨-f.m, f.e⟩

/-- The float64 value of a Go decimal literal `num / 10 ^ digits`: the
literal denotes the nearest float64 to the written decimal fraction. -/
def floatLit (num : Int) (den : Nat) : F64 := roundRat num den

/-- Float64 multiplication by an exact natural constant: the exact product
rounded back to 53 bits.  `1000000.0` is exactly representable, so Go
`geo * 1000000.0` is `mulNat geo 1000000`. -/
def F64.mulNat (x : F64) (c : Nat) : F64 :=
  if 0 ≤ x.e then roundRat (x.m * c * 2 ^ x.e.toNat) 1
  else roundRat (x.m * c) (2 ^ (-x.e).toNat)

/-- Go float64-to-integer conversion: truncation toward zero (`Int.tdiv`
rounds toward zero).  In-range inputs (the only ones the program meets for
valid latitudes and longitudes) convert exactly like this; out-of-range
conversions are implementation-dependent in Go and are not modelled. -/
def F64.truncInt (x : F64) : Int :=
  if 0 ≤ x.e then x.m * 2 ^ x.e.toNat else Int.tdiv x.m (2 ^ (-x.e).toNat)

/-- Go `adjustGeoCoordinates`: `int32(geo * 1000000.0)`. -/
def adjustGeoCoordinates (geo : F64) : Int :=
  (geo.mulNat 1000000).truncInt

/-- Truncation toward zero of a rational: floor for nonnegative values,
ceiling for negative ones (the rounding the spec prescribes for the
float-to-int conversion). -/
def truncTowardZero (q : ℚ) : Int := if 0 ≤ q then ⌊q⌋ else ⌈q⌉

/-! ### The external gpx collaborator and the import path -/

/-- One coordinate pair as the external gpxgo collaborator delivers it
(`GetLatitude`, `GetLongitude` are float64). -/
structure GpxPoint where
  latitude : F64
  longitude : F64
deriving DecidableEq, Repr

/-- One gpx waypoint: coordinates, the direction-marker `Symbol` string and
the `Name` text (as bytes). -/
structure GpxWaypoint where
  point : GpxPoint
  symbol : String
  name : List Nat
deriving DecidableEq, Repr

/-- The bounding box the gpx collaborator computes. -/
structure GpxBounds where
  maxLatitude : F64
  minLatitude : F64
  maxLongitude : F64
  minLongitude : F64
deriving DecidableEq, Repr

/-- Parsed gpx file as the external collaborator hands it over: tracks
(each a list of segments, each a list of points), waypoints, bounds and
the 3D length. -/
structure GpxData where
  tracks : List (List (List GpxPoint))
  waypoints : List GpxWaypoint
  bounds : GpxBounds
  length3D : F64
deriving DecidableEq, Repr

/-- Modelled from the spec: the external collaborator `GetTrackPointsNo`
returns the total number of track points across all tracks and all
segments of the gpx file. -/
def GpxData.getTrackPointsNo (g : GpxData) : Nat :=
  (g.tracks.map (fun t => (t.map List.length).sum)).sum

/-- Go conversion `int16(n)`: two's-complement wrap to 16 bits. -/
def wrapInt16 (v : Int) : Int := (v + 32768) % 65536 - 32768

/-- The point list `ImportGpx` iterates: the first segment of the first
track when both exist, nothing otherwise (the nested length guards). -/
def firstSegment (g : GpxData) : List GpxPoint :=
  match g.tracks with
  | [] => []
  | t :: _ =>
    match t with
    | [] => []
    | s :: _ => s

/-- Success path of `BrytonData.ImportGpx` (package variant, after the
parse succeeded): populate the summary, append the first segment of the
first track to the track, then append one waypoint record per gpx
waypoint, resolving its coordinates against the already-populated track. -/
def importGpxOk (d : BrytonData) (g : GpxData) : BrytonData :=
  let smy : BrytonSmy :=
    { smyFlag := d.smy.smyFlag
      coordinateCount := wrapInt16 (g.getTrackPointsNo : Int)
      bboxLatNe := adjustGeoCoordinates g.bounds.maxLatitude
      bboxLatSw := adjustGeoCoordinates g.bounds.minLatitude
      bboxLonNe := adjustGeoCoordinates g.bounds.maxLongitude
      bboxLonSw := adjustGeoCoordinates g.bounds.minLongitude
      totalDst := g.length3D.truncInt }
  let track : BrytonTrack :=
    d.track ++ (firstSegment g).map
      (fun p => ⟨adjustGeoCoordinates p.latitude, adjustGeoCoordinates p.longitude⟩)
  let tinfo : BrytonTinfo :=
    d.tinfo ++ g.waypoints.map (fun w =>
      { coordinateIndex := track.getCoordinateIndex
          ⟨adjustGeoCoordinates w.point.latitude, adjustGeoCoordinates w.point.longitude⟩
        directionCode := mapDirection w.symbol
        distance := 0
        timeSec := 0
        waypointDescription := mkDescription w.name })
  { smy := smy, track := track, tinfo := tinfo }

/-- Go `BrytonData.ImportGpx`, abstracted over the result of the external
`gpx.ParseFile` call: a parse error is returned at once, before any field
of the receiver is touched and before any output exists; otherwise the
model is populated. -/
def BrytonData.ImportGpx (d : BrytonData) (parsed : Except String GpxData) :
    BrytonData × Option String :=
  match parsed with
  | .error e => (d, some e)
  | .ok g => (importGpxOk d g, none)

/-! ### File output -/

/-- File-system state for the output side: the files written so far and
the set of names on which `os.Create` fails. -/
structure FSState where
  files : List (String × List Nat)
  failing : List String
deriving DecidableEq, Repr

/-- Go `storeToFile`: create the file and write the whole buffer.  When
creation fails the error is returned and nothing is written; otherwise the
full buffer becomes the file content (a short write would also surface an
error, so the caller sees all-or-nothing). -/
def storeToFile (buf : List Nat) (outFileName : String) (fs : FSState) :
    FSState × Option String :=
  if outFileName ∈ fs.failing then
    (fs, some ("create failed: " ++ outFileName))
  else
    ({ fs with files := fs.files ++ [(outFileName, buf)] }, none)

/-- Go `BrytonSmy.Export` (package variant): build the buffer, store it
under the adjusted name, return the store error. -/
def BrytonSmy.Export (s : BrytonSmy) (outFileName : String) (fs : FSState) :
    FSState × Option String :=
  storeToFile s.exportBytes (adjustFilename outFileName ".smy") fs

/-- Go `BrytonTrack.Export` (package variant). -/
def BrytonTrack.Export (t : BrytonTrack) (outFileName : String) (fs : FSState) :
    FSState × Option String :=
  storeToFile t.exportBytes (adjustFilename outFileName ".track") fs

/-- Go `BrytonTinfo.Export` (package variant). -/
def BrytonTinfo.Export (t : BrytonTinfo) (outFileName : String) (fs : FSState) :
    FSState × Option String :=
  storeToFile t.exportBytes (adjustFilename outFileName ".tinfo") fs

/-- Go `BrytonData.Export`: runs the three encoders in sequence.  The Go
function declares no return value, so the three per-file errors are
dropped on the floor; only the file-system state survives. -/
def BrytonData.Export (d : BrytonData) (outFileName : String) (fs : FSState) : FSState :=
  let fs1 := (d.smy.Export outFileName fs).1
  let fs2 := (BrytonTrack.Export d.track outFileName fs1).1
  (BrytonTinfo.Export d.tinfo outFileName fs2).1

/-- Fresh `BrytonData` value, the Go zero value `var data BrytonData`. -/
def emptyBrytonData : BrytonData := ⟨⟨0, 0, 0, 0, 0, 0, 0⟩, [], []⟩

/-- Concrete sequence refuting C3 as stated: 65536 copies of one point
followed by the searched point. -/
def seqC3 : BrytonTrack := List.replicate 65536 ⟨0, 0⟩ ++ [⟨1, 1⟩]

/-- Gpx input with two tracks, the second one empty. -/
def gpxC10 : GpxData :=
  ⟨[[[⟨⟨0, 0⟩, ⟨0, 0⟩⟩]], []], [], ⟨⟨0, 0⟩, ⟨0, 0⟩, ⟨0, 0⟩, ⟨0, 0⟩⟩, ⟨0, 0⟩⟩

/-! ### Helper lemmas -/

@[simp]
lemma int32ToLE_length (v : Int) : (int32ToLE v).length = 4 := rfl

@[simp]
lemma int16ToLE_length (v : Int) : (int16ToLE v).length = 2 := rfl

@[simp]
lemma uint16ToLE_length (v : Nat) : (uint16ToLE v).length = 2 := rfl

@[simp]
lemma uint8Byte_length (v : Nat) : (uint8Byte v).length = 1 := rfl

@[simp]
lemma int32ToBE_length (v : Int) : (int32ToBE v).length = 4 := by
  simp [int32ToBE]

@[simp]
lemma int16ToBE_length (v : Int) : (int16ToBE v).length = 2 := by
  simp [int16ToBE]

/-! ### Claims -/

/-- C2: the direction-marker mapping is case-insensitive and total: it
performs a lower-cased lookup sending tshl to 0x07, left to 0x03, tsll to
0x05, straight to 0x01, tslr to 0x04, right to 0x02, tshr to 0x06, and
every other string to the default 0x01; in particular the marker TSHL maps
to 0x07 and unknown-marker to 0x01. -/
theorem claim_C2_direction_code_mapping (s : String) :
    (lowerString s = "tshl" → mapDirection s = 0x07) ∧
    (lowerString s = "left" → mapDirection s = 0x03) ∧
    (lowerString s = "tsll" → mapDirection s = 0x05) ∧
    (lowerString s = "straight" → mapDirection s = 0x01) ∧
    (lowerString s = "tslr" → mapDirection s = 0x04) ∧
    (lowerString s = "right" → mapDirection s = 0x02) ∧
    (lowerString s = "tshr" → mapDirection s = 0x06) ∧
    (lowerString s ∉
        (["tshl", "left", "tsll", "straight", "tslr", "right", "tshr"] : List String) →
      mapDirection s = 0x01) ∧
    mapDirection "TSHL" = 0x07 ∧ mapDirection "unknown-marker" = 0x01 := by
  refine ⟨?_, ?_, ?_, ?_, ?_, ?_, ?_, ?_, by decide, by decide⟩ <;> intro h
  all_goals try
    simp [mapDirection, h, convertDirectionCode, DirectionCodeCloseLeft,
      DirectionCodeLeft, DirectionCodeSlightLeft, DirectionCodeGoAhead,
      DirectionCodeSlightRight, DirectionCodeRight, DirectionCodeCloseRight]
  simp only [List.mem_cons, List.not_mem_nil, or_false, not_or] at h
  obtain ⟨h1, h2, h3, h4, h5, h6, h7⟩ := h
  simp [mapDirection, convertDirectionCode, h1, h2, h3, h4, h5, h6, h7,
    DirectionCodeGoAhead]

/-- C2 witness: the theorem applied to the concrete marker TSHL. -/
theorem claim_C2_direction_code_mapping_witness : mapDirection "TSHL" = 0x07 :=
  (claim_C2_direction_code_mapping "TSHL").1 (by decide)

/-- C6: the summary encoder produces exactly 24 bytes, in field order
constant flag 0x0001 (2 bytes, little-endian, so leading bytes 1, 0),
coordinate count (2), north latitude (4), south latitude (4), east
longitude (4), west longitude (4), total distance (4). -/
theorem claim_C6_smy_layout (s : BrytonSmy) :
    BrytonSmy.exportBytes s =
      int16ToLE 1 ++ int16ToLE s.coordinateCount ++ int32ToLE s.bboxLatNe ++
        int32ToLE s.bboxLatSw ++ int32ToLE s.bboxLonNe ++ int32ToLE s.bboxLonSw ++
        int32ToLE s.totalDst ∧
    (BrytonSmy.exportBytes s).take 2 = [1, 0] ∧
    (BrytonSmy.exportBytes s).length = 24 := by
  refine ⟨rfl, rfl, ?_⟩
  simp [BrytonSmy.exportBytes]

/-- C7: when the gpx parse fails, `ImportGpx` returns the parse error at
once and the in-memory model is left exactly as it was: no summary field,
track point or waypoint is populated, and nothing reaches the file
system (export is a separate operation, never invoked here). -/
theorem claim_C7_parse_failure_aborts (d : BrytonData) (e : String) :
    d.ImportGpx (Except.error e) = (d, some e) := rfl

lemma int32OfLE_int32ToLE (v : Int) (h : isInt32 v) :
    int32OfLE ((v % 4294967296).toNat % 256) ((v % 4294967296).toNat / 256 % 256)
      ((v % 4294967296).toNat / 65536 % 256) ((v % 4294967296).toNat / 16777216 % 256) = v := by
  obtain ⟨h1, h2⟩ := h
  simp only [int32OfLE]
  split <;> omega

lemma encodeTrackPoint_length (p : GeoPoint) : (encodeTrackPoint p).length = 16 := by
  simp [encodeTrackPoint]

lemma trackDecode_cons (p : GeoPoint) (rest : List Nat)
    (hla : isInt32 p.lat) (hlo : isInt32 p.lon) :
    trackDecode (encodeTrackPoint p ++ rest) = p :: trackDecode rest := by
  simp only [encodeTrackPoint, int32ToLE, List.cons_append, List.nil_append, trackDecode]
  rw [int32OfLE_int32ToLE p.lat hla, int32OfLE_int32ToLE p.lon hlo]
  simp

/-- C4: the track encoder emits, in sequence order, exactly 16 bytes per
point (4 bytes latitude, 4 bytes longitude, 8 zero bytes), no header or
footer, so the buffer length is 16 times the point count, and decoding it
recovers the original points in order. -/
theorem claim_C4_track_roundtrip (ps : BrytonTrack)
    (h : ∀ p ∈ ps, isInt32 p.lat ∧ isInt32 p.lon) :
    (BrytonTrack.exportBytes ps).length = 16 * ps.length ∧
    trackDecode (BrytonTrack.exportBytes ps) = ps := by
  induction ps with
  | nil => exact ⟨rfl, rfl⟩
  | cons p ps ih =>
    have hp := h p (by simp)
    obtain ⟨ihl, ihd⟩ := ih (fun q hq => h q (by simp [hq]))
    constructor
    · simp only [BrytonTrack.exportBytes, List.flatMap_cons, List.length_append,
        encodeTrackPoint_length, List.length_cons] at ihl ⊢
      omega
    · show trackDecode (encodeTrackPoint p ++ BrytonTrack.exportBytes ps) = _
      rw [trackDecode_cons p _ hp.1 hp.2, ihd]

/-- C4 witness: the round trip at a concrete two-point track. -/
theorem claim_C4_track_roundtrip_witness :
    (BrytonTrack.exportBytes [⟨51507351, -127758⟩, ⟨0, 0⟩]).length = 16 * 2 ∧
    trackDecode (BrytonTrack.exportBytes [⟨51507351, -127758⟩, ⟨0, 0⟩]) =
      [⟨51507351, -127758⟩, ⟨0, 0⟩] :=
  claim_C4_track_roundtrip [⟨51507351, -127758⟩, ⟨0, 0⟩] (by decide)

lemma encodeWaypoint_length (w : Waypoint) (h : w.waypointDescription.length = 32) :
    (encodeWaypoint w).length = 44 := by
  simp [encodeWaypoint, h]

/-- C5: the waypoint encoder emits exactly 44 bytes per waypoint in list
order (index 2, direction 1, reserved 1, distance 2, reserved 2, time 2,
reserved 2, description 32), the description is the raw name truncated to
at most 32 bytes and zero-padded to exactly 32, and the buffer length is
always a multiple of 44. -/
theorem claim_C5_tinfo_layout (ws : BrytonTinfo) (name : List Nat)
    (h : ∀ w ∈ ws, w.waypointDescription.length = 32) :
    (BrytonTinfo.exportBytes ws).length = 44 * ws.length ∧
    (∃ k, (BrytonTinfo.exportBytes ws).length = 44 * k) ∧
    (∀ w ∈ ws, encodeWaypoint w =
      uint16ToLE w.coordinateIndex ++ uint8Byte w.directionCode ++ [0] ++
        uint16ToLE w.distance ++ [0, 0] ++ uint16ToLE w.timeSec ++ [0, 0] ++
        w.waypointDescription) ∧
    (mkDescription name).length = 32 ∧
    mkDescription name = (name ++ List.replicate 32 0).take 32 := by
  have hlen : (BrytonTinfo.exportBytes ws).length = 44 * ws.length := by
    induction ws with
    | nil => rfl
    | cons w ws ih =>
      have hw := h w (by simp)
      have := ih (fun q hq => h q (by simp [hq]))
      simp only [BrytonTinfo.exportBytes, List.flatMap_cons, List.length_append,
        List.length_cons] at this ⊢
      rw [encodeWaypoint_length w hw]
      omega
  refine ⟨hlen, ⟨ws.length, hlen⟩, fun w _ => rfl, ?_, ?_⟩
  · simp only [mkDescription, List.length_append, List.length_take, List.length_replicate]
    omega
  · rw [List.take_append_eq_append_take, List.take_replicate, mkDescription]
    congr 2
    omega

/-- C5 witness: the layout at a concrete one-waypoint list with the
four-byte name Turn. -/
theorem claim_C5_tinfo_layout_witness :
    (BrytonTinfo.exportBytes [⟨1, 3, 0, 0, mkDescription [84, 117, 114, 110]⟩]).length =
        44 * 1 ∧
    (mkDescription [84, 117, 114, 110]).length = 32 :=
  ⟨(claim_C5_tinfo_layout [⟨1, 3, 0, 0, mkDescription [84, 117, 114, 110]⟩]
      [84, 117, 114, 110] (by decide)).1,
   (claim_C5_tinfo_layout [⟨1, 3, 0, 0, mkDescription [84, 117, 114, 110]⟩]
      [84, 117, 114, 110] (by decide)).2.2.2.1⟩

lemma getCoordinateIndexAux_of_mem (p : GeoPoint) (t : List GeoPoint) (i : Nat)
    (h : p ∈ t) :
    getCoordinateIndexAux p i t = (i + t.findIdx (· = p)) % 65536 := by
  induction t generalizing i with
  | nil => cases h
  | cons e rest ih =>
    by_cases he : e = p
    · have hd : (decide (e = p)) = true := decide_eq_true he
      simp only [getCoordinateIndexAux, if_pos he, List.findIdx_cons, hd, cond_true,
        Nat.add_zero]
    · have hd : (decide (e = p)) = false := decide_eq_false he
      have hm : p ∈ rest := by
        rcases List.mem_cons.mp h with h1 | h1
        · exact absurd h1.symm he
        · exact h1
      simp only [getCoordinateIndexAux, if_neg he, List.findIdx_cons, hd, cond_false]
      rw [ih _ hm]
      congr 1
      omega

lemma getCoordinateIndexAux_of_not_mem (p : GeoPoint) (t : List GeoPoint) (i : Nat)
    (h : p ∉ t) :
    getCoordinateIndexAux p i t = 0 := by
  induction t generalizing i with
  | nil => rfl
  | cons e rest ih =>
    have he : ¬(e = p) := fun hh => h (by simp [hh.symm])
    have hm : p ∉ rest := fun hh => h (List.mem_cons_of_mem _ hh)
    simp only [getCoordinateIndexAux, if_neg he]
    exact ih _ hm

/-- C3 (amended): the resolver returns 0 when no element of the sequence
equals the point, and otherwise returns the lowest matching index reduced
modulo 65536 (the Go `uint16` conversion of the loop counter); whenever
that lowest index is below 65536 it is returned exactly.  `List.findIdx`
is the lowest matching index: the last two conjuncts show no earlier
element matches and the element there does match. -/
theorem claim_C3_resolver_amended (t : BrytonTrack) (p : GeoPoint) :
    (p ∉ t → BrytonTrack.getCoordinateIndex t p = 0) ∧
    (p ∈ t → BrytonTrack.getCoordinateIndex t p = t.findIdx (· = p) % 65536) ∧
    (p ∈ t → t.findIdx (· = p) < 65536 →
      BrytonTrack.getCoordinateIndex t p = t.findIdx (· = p)) ∧
    (∀ j, j < t.findIdx (· = p) → t[j]? ≠ some p) ∧
    (p ∈ t → t[t.findIdx (· = p)]? = some p) := by
  refine ⟨?_, ?_, ?_, ?_, ?_⟩
  · exact fun h => getCoordinateIndexAux_of_not_mem p t 0 h
  · intro h
    rw [BrytonTrack.getCoordinateIndex, getCoordinateIndexAux_of_mem p t 0 h, Nat.zero_add]
  · intro h hlt
    rw [BrytonTrack.getCoordinateIndex, getCoordinateIndexAux_of_mem p t 0 h, Nat.zero_add,
      Nat.mod_eq_of_lt hlt]
  · intro j hj
    have hlen : j < t.length := lt_of_lt_of_le hj (List.findIdx_le_length _)
    rw [List.getElem?_eq_getElem hlen]
    intro hc
    have hjp : t[j] = p := Option.some.inj hc
    have hfalse := List.not_of_lt_findIdx hj
    rw [hjp] at hfalse
    simp at hfalse
  · intro h
    have hlt : t.findIdx (· = p) < t.length :=
      List.findIdx_lt_length_of_exists ⟨p, h, by simp⟩
    rw [List.getElem?_eq_getElem hlt]
    have := List.findIdx_getElem (w := hlt)
    simpa using this

/-- C3 witness: resolving a point present at index 1 of a concrete
two-point track returns 1. -/
theorem claim_C3_resolver_amended_witness :
    BrytonTrack.getCoordinateIndex [⟨5, 6⟩, ⟨1, 1⟩] ⟨1, 1⟩ = 1 :=
  (claim_C3_resolver_amended [⟨5, 6⟩, ⟨1, 1⟩] ⟨1, 1⟩).2.2.1 (by decide) (by decide)

lemma findIdx_eq_of_replicate_append (n : Nat) (a b : GeoPoint) (h : ¬(a = b)) :
    (List.replicate n a ++ [b]).findIdx (· = b) = n := by
  rw [List.findIdx_append]
  have hrep : (List.replicate n a).findIdx (· = b) = n := by
    induction n with
    | zero => rfl
    | succ k ih => simp [List.replicate_succ, List.findIdx_cons, h, ih]
  simp [hrep, List.findIdx_cons]

/-- C3 counterexample: the searched point occurs in the sequence, its
lowest (and only) matching index is 65536, yet the resolver returns 0 —
so the resolver does not return the lowest matching index, and a
non-zero-index match is reported as 0, beyond the documented ambiguity. -/
theorem claim_C3_counterexample :
    BrytonTrack.getCoordinateIndex seqC3 ⟨1, 1⟩ = 0 ∧
    (⟨1, 1⟩ : GeoPoint) ∈ seqC3 ∧
    seqC3.findIdx (· = (⟨1, 1⟩ : GeoPoint)) = 65536 ∧
    seqC3.length = 65537 := by
  have hmem : (⟨1, 1⟩ : GeoPoint) ∈ seqC3 := by
    rw [seqC3]
    exact List.mem_append_right _ (List.mem_singleton.mpr rfl)
  have hfind : seqC3.findIdx (· = (⟨1, 1⟩ : GeoPoint)) = 65536 :=
    findIdx_eq_of_replicate_append 65536 _ _ (by decide)
  refine ⟨?_, hmem, hfind, ?_⟩
  · rw [BrytonTrack.getCoordinateIndex, getCoordinateIndexAux_of_mem _ _ _ hmem, hfind]
  · rw [seqC3, List.length_append, List.length_replicate, List.length_cons,
      List.length_nil]

/-- C9: the two historical encoder variants are not byte-equivalent: on
the same in-memory data, the big-endian raw-struct variant and the
little-endian explicit-flag variant produce diverging .smy bytes, and the
two .track encoders diverge as well. -/
theorem claim_C9_variants_diverge :
    BrytonSmy.exportBytesBE ⟨1, 3, 51507351, -127758, 1000, -1000, 60000⟩ ≠
      BrytonSmy.exportBytes ⟨1, 3, 51507351, -127758, 1000, -1000, 60000⟩ ∧
    BrytonTrack.exportBytesBE [⟨51507351, -127758⟩] ≠
      BrytonTrack.exportBytes [⟨51507351, -127758⟩] := by
  constructor <;> decide

/-- C8 (amended): each of the three leaf export operations surfaces an
IOFailure to its caller as a per-file error value with no retry, and each
file write is all-or-nothing (full buffer stored, or an error returned
with the file system unchanged); `BrytonData.Export`, however, composes
the three leaf calls on the file-system state alone and drops their error
values, so a failure in one encoder is not surfaced by the aggregate. -/
theorem claim_C8_amended (d : BrytonData) (out : String) (fs : FSState) :
    (∀ buf name,
      (name ∈ fs.failing →
        storeToFile buf name fs = (fs, some ("create failed: " ++ name))) ∧
      (name ∉ fs.failing →
        storeToFile buf name fs =
          ({ fs with files := fs.files ++ [(name, buf)] }, none))) ∧
    BrytonSmy.Export d.smy out fs =
      storeToFile d.smy.exportBytes (adjustFilename out ".smy") fs ∧
    BrytonTrack.Export d.track out fs =
      storeToFile (BrytonTrack.exportBytes d.track) (adjustFilename out ".track") fs ∧
    BrytonTinfo.Export d.tinfo out fs =
      storeToFile (BrytonTinfo.exportBytes d.tinfo) (adjustFilename out ".tinfo") fs ∧
    BrytonData.Export d out fs =
      (BrytonTinfo.Export d.tinfo out
        (BrytonTrack.Export d.track out ((BrytonSmy.Export d.smy out fs).1)).1).1 := by
  refine ⟨fun buf name => ⟨fun h => ?_, fun h => ?_⟩, rfl, rfl, rfl, rfl⟩
  · simp [storeToFile, h]
  · simp [storeToFile, h]

/-- C8 witness: a concrete failing file name makes the store return the
error with the file system unchanged. -/
theorem claim_C8_amended_witness :
    storeToFile [1, 2] "a.smy" ⟨[], ["a.smy"]⟩ =
      (⟨[], ["a.smy"]⟩, some ("create failed: " ++ "a.smy")) :=
  ((claim_C8_amended emptyBrytonData "a" ⟨[], ["a.smy"]⟩).1 [1, 2] "a.smy").1 (by decide)

/-- C8 counterexample: with the .smy creation failing, the smy encoder
itself reports the error, but `BrytonData.Export` carries on, writes the
.track and .tinfo files, and its entire result is the file-system state —
the Go function has no return value, so the failure reaches no caller. -/
theorem claim_C8_counterexample :
    (BrytonSmy.Export (⟨0, 0, 0, 0, 0, 0, 0⟩ : BrytonSmy) "out" ⟨[], ["out.smy"]⟩).2 =
      some "create failed: out.smy" ∧
    BrytonData.Export emptyBrytonData "out" ⟨[], ["out.smy"]⟩ =
      ⟨[("out.track", []), ("out.tinfo", [])], ["out.smy"]⟩ := by
  constructor <;> decide

lemma firstSegment_length_le (g : GpxData) :
    (firstSegment g).length ≤ g.getTrackPointsNo := by
  rcases hg : g.tracks with _ | ⟨t, ts⟩
  · simp [firstSegment, GpxData.getTrackPointsNo, hg]
  · rcases ht : t with _ | ⟨s, segs⟩
    · simp [firstSegment, GpxData.getTrackPointsNo, hg, ht]
    · simp [firstSegment, GpxData.getTrackPointsNo, hg, ht]
      omega

/-- C10 (amended): after a successful import into a fresh model, the
summary count is the int16-wrapped total point count over all tracks and
segments while the track sequence holds only the first segment of the
first track; when the total fits in int16 the count is at least the
number of .track records, with strict excess exactly when some point lies
outside the first segment of the first track (extra tracks or segments
that are empty add no excess). -/
theorem claim_C10_amended (g : GpxData) :
    (importGpxOk emptyBrytonData g).smy.coordinateCount =
      wrapInt16 (g.getTrackPointsNo : Int) ∧
    (importGpxOk emptyBrytonData g).track.length = (firstSegment g).length ∧
    (firstSegment g).length ≤ g.getTrackPointsNo ∧
    (g.getTrackPointsNo ≤ 32767 →
      ((importGpxOk emptyBrytonData g).smy.coordinateCount = (g.getTrackPointsNo : Int) ∧
       ((importGpxOk emptyBrytonData g).track.length : Int) ≤
         (importGpxOk emptyBrytonData g).smy.coordinateCount ∧
       ((firstSegment g).length < g.getTrackPointsNo ↔
         ((importGpxOk emptyBrytonData g).track.length : Int) <
           (importGpxOk emptyBrytonData g).smy.coordinateCount))) := by
  have hlen : (importGpxOk emptyBrytonData g).track.length = (firstSegment g).length := by
    simp [importGpxOk, emptyBrytonData]
  have hle := firstSegment_length_le g
  refine ⟨rfl, hlen, hle, fun hb => ?_⟩
  have hcc : (importGpxOk emptyBrytonData g).smy.coordinateCount =
      wrapInt16 (g.getTrackPointsNo : Int) := rfl
  have hw : wrapInt16 (g.getTrackPointsNo : Int) = (g.getTrackPointsNo : Int) := by
    unfold wrapInt16
    omega
  rw [hcc, hw, hlen]
  refine ⟨rfl, by exact_mod_cast hle, ?_⟩
  constructor <;> intro h <;> exact_mod_cast h

/-- C10 witness: on the concrete input the in-range count equals the
total point number. -/
theorem claim_C10_amended_witness :
    (importGpxOk emptyBrytonData gpxC10).smy.coordinateCount =
      (gpxC10.getTrackPointsNo : Int) :=
  ((claim_C10_amended gpxC10).2.2.2 (by decide)).1

/-- C10 counterexample: a gpx input with more than one track (the second
empty) on which the summary count equals — is not strictly greater
than — the number of .track records, refuting the claimed strict
inequality for every multi-track input. -/
theorem claim_C10_counterexample :
    gpxC10.tracks.length = 2 ∧
    (importGpxOk emptyBrytonData gpxC10).smy.coordinateCount = 1 ∧
    (importGpxOk emptyBrytonData gpxC10).track.length = 1 ∧
    ¬(((importGpxOk emptyBrytonData gpxC10).track.length : Int) <
        (importGpxOk emptyBrytonData gpxC10).smy.coordinateCount) := by
  refine ⟨rfl, by decide, rfl, by decide⟩

lemma toRat_of_nonneg_exp (x : F64) (h : 0 ≤ x.e) :
    x.toRat = ((x.m * 2 ^ x.e.toNat : Int) : ℚ) := by
  rw [F64.toRat]
  push_cast
  rw [← zpow_natCast (2 : ℚ) x.e.toNat, Int.toNat_of_nonneg h]

lemma neg_exp_cast (e : Int) (h : ¬(0 ≤ e)) :
    ((2 ^ (-e).toNat : Nat) : ℚ) = (2 : ℚ) ^ (-e) := by
  push_cast
  rw [← zpow_natCast (2 : ℚ), Int.toNat_of_nonneg (by omega)]

lemma toRat_of_neg_exp (x : F64) (h : ¬(0 ≤ x.e)) :
    x.toRat = (x.m : ℚ) / ((2 ^ (-x.e).toNat : Nat) : ℚ) := by
  rw [F64.toRat, neg_exp_cast x.e h, zpow_neg, div_inv_eq_mul]

lemma truncInt_eq (x : F64) : x.truncInt = truncTowardZero x.toRat := by
  by_cases he : 0 ≤ x.e
  · rw [F64.truncInt, if_pos he, truncTowardZero, toRat_of_nonneg_exp x he]
    rcases le_or_lt 0 ((x.m * 2 ^ x.e.toNat : Int) : ℚ) with h | h
    · rw [if_pos h, Int.floor_intCast]
    · rw [if_neg (not_le.mpr h), Int.ceil_intCast]
  · rw [F64.truncInt, if_neg he, truncTowardZero, toRat_of_neg_exp x he]
    rcases le_or_lt 0 x.m with hm | hm
    · have hq : 0 ≤ (x.m : ℚ) / ((2 ^ (-x.e).toNat : Nat) : ℚ) := by positivity
      rw [if_pos hq, Rat.floor_intCast_div_natCast,
        Int.tdiv_eq_ediv hm (by positivity)]
      push_cast
      rfl
    · have hq : ¬(0 ≤ (x.m : ℚ) / ((2 ^ (-x.e).toNat : Nat) : ℚ)) := by
        rw [not_le]
        apply div_neg_of_neg_of_pos
        · exact_mod_cast hm
        · positivity
      rw [if_neg hq]
      have h1 : (x.m : ℚ) / ((2 ^ (-x.e).toNat : Nat) : ℚ) =
          -(((-x.m : Int) : ℚ) / ((2 ^ (-x.e).toNat : Nat) : ℚ)) := by
        push_cast
        ring
      have h2 := Int.neg_tdiv (-x.m) (2 ^ (-x.e).toNat)
      rw [neg_neg] at h2
      rw [h1, Int.ceil_neg, Rat.floor_intCast_div_natCast, h2,
        Int.tdiv_eq_ediv (by omega) (by positivity)]
      push_cast
      rfl

lemma abs_truncTowardZero_le (q : ℚ) : |(truncTowardZero q : ℚ)| ≤ |q| := by
  rw [truncTowardZero]
  rcases le_or_lt 0 q with h | h
  · rw [if_pos h, abs_of_nonneg h, abs_of_nonneg]
    · exact_mod_cast Int.floor_le q
    · exact_mod_cast Int.floor_nonneg.mpr h
  · rw [if_neg (not_le.mpr h), abs_of_neg h, abs_of_nonpos]
    · rw [neg_le_neg_iff]
      exact_mod_cast Int.le_ceil q
    · exact_mod_cast Int.ceil_le.mpr (by exact_mod_cast le_of_lt h : q ≤ ((0 : Int) : ℚ))

lemma log2Aux_eq (fuel : Nat) : ∀ n, n ≤ fuel → log2Aux fuel n = Nat.log2 n := by
  induction fuel with
  | zero =>
    intro n hn
    have : n = 0 := Nat.le_zero.mp hn
    subst this
    rw [Nat.log2]
    simp [log2Aux]
  | succ f ih =>
    intro n hn
    rw [log2Aux, Nat.log2]
    by_cases h2 : n < 2
    · rw [if_pos h2, if_neg (by omega)]
    · rw [if_neg h2, if_pos (by omega), ih (n / 2) (by omega)]

lemma log2F_eq (n : Nat) : log2F n = Nat.log2 n := log2Aux_eq n n le_rfl

lemma log2F_bounds (n : Nat) (h : 1 ≤ n) :
    2 ^ log2F n ≤ n ∧ n < 2 ^ (log2F n + 1) := by
  rw [log2F_eq]
  exact ⟨Nat.log2_self_le (by omega), Nat.lt_log2_self⟩

lemma log2F_bounds_q (n : Nat) (h : 1 ≤ n) :
    (2 : ℚ) ^ ((log2F n : Int)) ≤ (n : ℚ) ∧
      (n : ℚ) < (2 : ℚ) ^ ((log2F n : Int) + 1) := by
  obtain ⟨h1, h2⟩ := log2F_bounds n h
  constructor
  · rw [show ((log2F n : Int)) = ((log2F n : Nat) : Int) from rfl, zpow_natCast]
    exact_mod_cast h1
  · rw [show ((log2F n : Int) + 1) = (((log2F n + 1 : Nat)) : Int) from by push_cast; ring,
      zpow_natCast]
    exact_mod_cast h2

lemma shiftGe_iff (a : Nat) (k : Int) (c : Nat) :
    shiftGe a k c = true ↔ (c : ℚ) ≤ (a : ℚ) * (2 : ℚ) ^ k := by
  rw [shiftGe]
  by_cases hk : 0 ≤ k
  · rw [if_pos hk, decide_eq_true_iff]
    have hp : ((2 ^ k.toNat : Nat) : ℚ) = (2 : ℚ) ^ k := by
      push_cast
      rw [← zpow_natCast (2 : ℚ), Int.toNat_of_nonneg hk]
    constructor
    · intro h
      calc (c : ℚ) ≤ ((a * 2 ^ k.toNat : Nat) : ℚ) := by exact_mod_cast h
        _ = (a : ℚ) * (2 : ℚ) ^ k := by push_cast [← hp]; ring
    · intro h
      have : (c : ℚ) ≤ ((a * 2 ^ k.toNat : Nat) : ℚ) := by
        calc (c : ℚ) ≤ (a : ℚ) * (2 : ℚ) ^ k := h
          _ = ((a * 2 ^ k.toNat : Nat) : ℚ) := by push_cast [← hp]; ring
      exact_mod_cast this
  · rw [if_neg hk, decide_eq_true_iff]
    have hp : ((2 ^ (-k).toNat : Nat) : ℚ) = (2 : ℚ) ^ (-k) := neg_exp_cast k hk
    have hcancel : (2 : ℚ) ^ (-k) * (2 : ℚ) ^ k = 1 := by
      rw [← zpow_add₀ (by norm_num : (2 : ℚ) ≠ 0)]
      norm_num
    constructor
    · intro h
      have hq : (c : ℚ) * (2 : ℚ) ^ (-k) ≤ (a : ℚ) := by
        calc (c : ℚ) * (2 : ℚ) ^ (-k) = ((c * 2 ^ (-k).toNat : Nat) : ℚ) := by
              push_cast [← hp]; ring
          _ ≤ (a : ℚ) := by exact_mod_cast h
      calc (c : ℚ) = (c : ℚ) * ((2 : ℚ) ^ (-k) * (2 : ℚ) ^ k) := by rw [hcancel, mul_one]
        _ = ((c : ℚ) * (2 : ℚ) ^ (-k)) * (2 : ℚ) ^ k := by ring
        _ ≤ (a : ℚ) * (2 : ℚ) ^ k := mul_le_mul_of_nonneg_right hq (by positivity)
    · intro h
      have hq : (c : ℚ) * (2 : ℚ) ^ (-k) ≤ (a : ℚ) := by
        calc (c : ℚ) * (2 : ℚ) ^ (-k) ≤ ((a : ℚ) * (2 : ℚ) ^ k) * (2 : ℚ) ^ (-k) :=
              mul_le_mul_of_nonneg_right h (by positivity)
          _ = (a : ℚ) * ((2 : ℚ) ^ (-k) * (2 : ℚ) ^ k) := by ring
          _ = (a : ℚ) := by rw [hcancel, mul_one]
      have hn : ((c * 2 ^ (-k).toNat : Nat) : ℚ) ≤ (a : ℚ) := by
        push_cast [← hp] at hq ⊢
        linarith
      exact_mod_cast hn

lemma scaledPair_snd_pos (a b : Nat) (k : Int) (hb : 0 < b) :
    0 < (scaledPair a b k).2 := by
  rw [scaledPair]
  split
  · exact hb
  · positivity

lemma scaledPair_cross (a b : Nat) (k : Int) :
    ((scaledPair a b k).1 : ℚ) * (b : ℚ) =
      (a : ℚ) * (2 : ℚ) ^ k * ((scaledPair a b k).2 : ℚ) := by
  rw [scaledPair]
  by_cases hk : 0 ≤ k
  · rw [if_pos hk]
    have hp : ((2 ^ k.toNat : Nat) : ℚ) = (2 : ℚ) ^ k := by
      push_cast
      rw [← zpow_natCast (2 : ℚ), Int.toNat_of_nonneg hk]
    push_cast [← hp]
    ring
  · rw [if_neg hk]
    have hcancel : (2 : ℚ) ^ k * (2 : ℚ) ^ (-k) = 1 := by
      rw [← zpow_add₀ (by norm_num : (2 : ℚ) ≠ 0)]
      norm_num
    push_cast
    rw [← zpow_natCast (2 : ℚ) ((-k).toNat), Int.toNat_of_nonneg (by omega : (0 : ℤ) ≤ -k)]
    calc (a : ℚ) * (b : ℚ) = (a : ℚ) * ((2 : ℚ) ^ k * (2 : ℚ) ^ (-k)) * b := by
          rw [hcancel, mul_one]
      _ = (a : ℚ) * (2 : ℚ) ^ k * ((b : ℚ) * (2 : ℚ) ^ (-k)) := by ring

lemma findExp_lower_aux (a b : Nat) (ha : 1 ≤ a) (hb : 1 ≤ b) :
    (2 : ℚ) ^ (52 : Int) * (b : ℚ) ≤
      (a : ℚ) * (2 : ℚ) ^ ((53 : Int) - ((log2F a : Int) - (log2F b : Int))) := by
  obtain ⟨ha1, _⟩ := log2F_bounds_q a ha
  obtain ⟨_, hb2⟩ := log2F_bounds_q b hb
  have hstep1 : (2 : ℚ) ^ (52 : Int) * (b : ℚ) <
      (2 : ℚ) ^ (52 : Int) * (2 : ℚ) ^ ((log2F b : Int) + 1) :=
    mul_lt_mul_of_pos_left hb2 (by positivity)
  have hstep2 : (2 : ℚ) ^ (52 : Int) * (2 : ℚ) ^ ((log2F b : Int) + 1) =
      (2 : ℚ) ^ ((log2F a : Int)) *
        (2 : ℚ) ^ ((53 : Int) - ((log2F a : Int) - (log2F b : Int))) := by
    rw [← zpow_add₀ (by norm_num : (2 : ℚ) ≠ 0),
      ← zpow_add₀ (by norm_num : (2 : ℚ) ≠ 0)]
    congr 1
    omega
  have hstep3 : (2 : ℚ) ^ ((log2F a : Int)) *
      (2 : ℚ) ^ ((53 : Int) - ((log2F a : Int) - (log2F b : Int))) ≤
      (a : ℚ) * (2 : ℚ) ^ ((53 : Int) - ((log2F a : Int) - (log2F b : Int))) :=
    mul_le_mul_of_nonneg_right ha1 (by positivity)
  linarith

lemma findExp_lower_q (a b : Nat) (ha : 1 ≤ a) (hb : 1 ≤ b) :
    (2 : ℚ) ^ (52 : Int) * (b : ℚ) ≤ (a : ℚ) * (2 : ℚ) ^ (findExp a b) := by
  rw [findExp]
  cases hs : shiftGe a (52 - ((log2F a : Int) - (log2F b : Int)))
      (4503599627370496 * b) with
  | false =>
    simp only [hs, Bool.false_eq_true, if_false]
    exact findExp_lower_aux a b ha hb
  | true =>
    simp only [hs, if_true]
    have := (shiftGe_iff a (52 - ((log2F a : Int) - (log2F b : Int)))
      (4503599627370496 * b)).mp hs
    have hc : ((4503599627370496 * b : Nat) : ℚ) = (2 : ℚ) ^ (52 : Int) * b := by
      push_cast
      norm_num
    rw [hc] at this
    exact this

lemma scaled_lower (a b : Nat) (ha : 1 ≤ a) (hb : 1 ≤ b) :
    (2 : ℚ) ^ (52 : Int) * ((scaledPair a b (findExp a b)).2 : ℚ) ≤
      ((scaledPair a b (findExp a b)).1 : ℚ) := by
  have hcross := scaledPair_cross a b (findExp a b)
  have hlow := findExp_lower_q a b ha hb
  have hden : (0 : ℚ) < ((scaledPair a b (findExp a b)).2 : ℚ) := by
    exact_mod_cast scaledPair_snd_pos a b (findExp a b) (by omega)
  have hbq : (0 : ℚ) < (b : ℚ) := by exact_mod_cast hb
  nlinarith [hcross, hlow, hden, hbq]

lemma roundMantissa_le_nat (a b : Nat) (k : Int) :
    roundMantissa a b k ≤ (scaledPair a b k).1 / (scaledPair a b k).2 + 1 := by
  rw [roundMantissa]
  split
  · omega
  · split
    · omega
    · split <;> omega

lemma roundMantissa_le (a b : Nat) (k : Int) :
    (roundMantissa a b k : ℚ) ≤
      ((scaledPair a b k).1 : ℚ) / ((scaledPair a b k).2 : ℚ) + 1 := by
  have h1 := roundMantissa_le_nat a b k
  have h2 : ((((scaledPair a b k).1 / (scaledPair a b k).2 : Nat)) : ℚ) ≤
      ((scaledPair a b k).1 : ℚ) / ((scaledPair a b k).2 : ℚ) := Nat.cast_div_le
  have h3 : (roundMantissa a b k : ℚ) ≤
      (((scaledPair a b k).1 / (scaledPair a b k).2 + 1 : Nat) : ℚ) := by
    exact_mod_cast h1
  push_cast at h3
  linarith

lemma roundPosRat_toRat (a b : Nat) (ha : a ≠ 0) :
    (roundPosRat a b).toRat =
      (roundMantissa a b (findExp a b) : ℚ) * (2 : ℚ) ^ (-(findExp a b)) := by
  rw [roundPosRat, if_neg ha]
  by_cases hc : roundMantissa a b (findExp a b) = 9007199254740992
  · rw [if_pos hc, F64.toRat, hc]
    have he : -(findExp a b - 1) = -(findExp a b) + 1 := by ring
    rw [he, zpow_add₀ (by norm_num : (2 : ℚ) ≠ 0)]
    push_cast
    ring
  · rw [if_neg hc, F64.toRat]
    push_cast
    ring

lemma roundPosRat_toRat_nonneg (a b : Nat) : 0 ≤ (roundPosRat a b).toRat := by
  rw [roundPosRat]
  by_cases ha : a = 0
  · rw [if_pos ha, F64.toRat]
    norm_num
  · rw [if_neg ha]
    by_cases hc : roundMantissa a b (findExp a b) = 9007199254740992
    · rw [if_pos hc, F64.toRat]
      positivity
    · rw [if_neg hc, F64.toRat]
      positivity

lemma roundPosRat_le (a b : Nat) (hb : 0 < b) :
    (roundPosRat a b).toRat ≤ 2 * ((a : ℚ) / (b : ℚ)) := by
  by_cases ha : a = 0
  · subst ha
    rw [roundPosRat, if_pos rfl, F64.toRat]
    norm_num
  · have ha1 : 1 ≤ a := by omega
    set k := findExp a b with hk
    set n := (scaledPair a b k).1 with hn
    set den := (scaledPair a b k).2 with hdn
    have hdenpos : (0 : ℚ) < (den : ℚ) := by
      exact_mod_cast scaledPair_snd_pos a b k hb
    have hbq : (0 : ℚ) < (b : ℚ) := by exact_mod_cast hb
    have hpk : (0 : ℚ) < (2 : ℚ) ^ k := by positivity
    have hcross : (n : ℚ) * (b : ℚ) = (a : ℚ) * (2 : ℚ) ^ k * (den : ℚ) :=
      scaledPair_cross a b k
    have hval : (n : ℚ) / (den : ℚ) = ((a : ℚ) / (b : ℚ)) * (2 : ℚ) ^ k := by
      rw [div_eq_iff (ne_of_gt hdenpos)]
      field_simp at hcross ⊢
      linarith [hcross]
    have hub : (roundMantissa a b k : ℚ) ≤ ((a : ℚ) / (b : ℚ)) * (2 : ℚ) ^ k + 1 := by
      have := roundMantissa_le a b k
      rwa [hval] at this
    have hlow : (2 : ℚ) ^ (52 : Int) * (den : ℚ) ≤ (n : ℚ) := scaled_lower a b ha1 hb
    have hone : (1 : ℚ) ≤ ((a : ℚ) / (b : ℚ)) * (2 : ℚ) ^ k := by
      have h52 : (2 : ℚ) ^ (52 : Int) ≤ (n : ℚ) / (den : ℚ) := by
        rw [le_div_iff₀ hdenpos]
        exact hlow
      rw [hval] at h52
      have : (1 : ℚ) ≤ (2 : ℚ) ^ (52 : Int) := by norm_num
      linarith
    rw [roundPosRat_toRat a b ha, zpow_neg]
    rw [← div_eq_mul_inv, div_le_iff₀ hpk]
    have hgoal : 2 * ((a : ℚ) / (b : ℚ)) * (2 : ℚ) ^ k =
        ((a : ℚ) / (b : ℚ)) * (2 : ℚ) ^ k + ((a : ℚ) / (b : ℚ)) * (2 : ℚ) ^ k := by ring
    rw [hgoal]
    linarith

lemma roundRat_abs_le (num : Int) (den : Nat) (hden : 0 < den) :
    |(roundRat num den).toRat| ≤ 2 * |(num : ℚ)| / (den : ℚ) := by
  simp only [roundRat]
  by_cases hs : 0 ≤ num
  · rw [if_pos hs]
    have h1 := roundPosRat_le num.toNat den hden
    have h0 := roundPosRat_toRat_nonneg num.toNat den
    rw [abs_of_nonneg h0]
    have hcast : ((num.toNat : ℚ)) = |(num : ℚ)| := by
      rw [abs_of_nonneg (by exact_mod_cast hs)]
      exact_mod_cast Int.toNat_of_nonneg hs
    calc (roundPosRat num.toNat den).toRat ≤ 2 * ((num.toNat : ℚ) / (den : ℚ)) := h1
      _ = 2 * |(num : ℚ)| / (den : ℚ) := by rw [hcast]; ring
  · rw [if_neg hs]
    have h1 := roundPosRat_le (-num).toNat den hden
    have h0 := roundPosRat_toRat_nonneg (-num).toNat den
    have hneg : F64.toRat ⟨-(roundPosRat (-num).toNat den).m,
        (roundPosRat (-num).toNat den).e⟩ = -(roundPosRat (-num).toNat den).toRat := by
      rw [F64.toRat, F64.toRat]
      push_cast
      ring
    rw [hneg, abs_neg, abs_of_nonneg h0]
    have hcast : (((-num).toNat : ℚ)) = |(num : ℚ)| := by
      rw [abs_of_neg (by exact_mod_cast not_le.mp hs : (num : ℚ) < 0)]
      have : ((-num).toNat : Int) = -num := Int.toNat_of_nonneg (by omega)
      exact_mod_cast this
    calc (roundPosRat (-num).toNat den).toRat ≤ 2 * (((-num).toNat : ℚ) / (den : ℚ)) := h1
      _ = 2 * |(num : ℚ)| / (den : ℚ) := by rw [hcast]; ring

lemma mulNat_abs_le (x : F64) (c : Nat) :
    |(F64.mulNat x c).toRat| ≤ 2 * (c : ℚ) * |x.toRat| := by
  rw [F64.mulNat]
  by_cases he : 0 ≤ x.e
  · rw [if_pos he]
    have h1 := roundRat_abs_le (x.m * c * 2 ^ x.e.toNat) 1 one_pos
    have h2 : |((x.m * c * 2 ^ x.e.toNat : Int) : ℚ)| = (c : ℚ) * |x.toRat| := by
      rw [toRat_of_nonneg_exp x he]
      push_cast
      rw [abs_mul, abs_mul, abs_mul,
        abs_of_nonneg (by positivity : (0 : ℚ) ≤ (c : ℚ)),
        abs_of_nonneg (by positivity : (0 : ℚ) ≤ (2 : ℚ) ^ x.e.toNat)]
      ring
    calc |(roundRat (x.m * c * 2 ^ x.e.toNat) 1).toRat| ≤
          2 * |((x.m * c * 2 ^ x.e.toNat : Int) : ℚ)| / ((1 : Nat) : ℚ) := h1
      _ = 2 * (c : ℚ) * |x.toRat| := by rw [h2]; push_cast; ring
  · rw [if_neg he]
    have hdpos : 0 < 2 ^ (-x.e).toNat := Nat.pos_pow_of_pos _ (by norm_num)
    have h1 := roundRat_abs_le (x.m * c) (2 ^ (-x.e).toNat) hdpos
    have h2 : |x.toRat| = |(x.m : ℚ)| / ((2 ^ (-x.e).toNat : Nat) : ℚ) := by
      rw [toRat_of_neg_exp x he, abs_div,
        abs_of_nonneg (by positivity : (0 : ℚ) ≤ ((2 ^ (-x.e).toNat : Nat) : ℚ))]
    calc |(roundRat (x.m * c) (2 ^ (-x.e).toNat)).toRat| ≤
          2 * |((x.m * c : Int) : ℚ)| / ((2 ^ (-x.e).toNat : Nat) : ℚ) := h1
      _ = 2 * (c : ℚ) * (|(x.m : ℚ)| / ((2 ^ (-x.e).toNat : Nat) : ℚ)) := by
          push_cast
          rw [abs_mul, abs_of_nonneg (by positivity : (0 : ℚ) ≤ (c : ℚ))]
          ring
      _ = 2 * (c : ℚ) * |x.toRat| := by rw [← h2]

/-- C1: for every float64 degree value in the valid latitude-longitude
range, `adjustGeoCoordinates` equals the float64 product with 1000000.0
truncated toward zero (floor for nonnegative products, ceiling for
negative ones — not rounded), and the result fits the signed 32-bit
range; in particular the encodings of the literals 51.507351 and
-0.127758 are 51507351 and -127758. -/
theorem claim_C1_coordinate_codec (geo : F64) (h : |geo.toRat| ≤ 180) :
    adjustGeoCoordinates geo = truncTowardZero ((F64.mulNat geo 1000000).toRat) ∧
    isInt32 (adjustGeoCoordinates geo) ∧
    adjustGeoCoordinates (floatLit 51507351 1000000) = 51507351 ∧
    adjustGeoCoordinates (floatLit (-127758) 1000000) = -127758 := by
  have h1 : adjustGeoCoordinates geo = truncTowardZero ((F64.mulNat geo 1000000).toRat) := by
    rw [adjustGeoCoordinates, truncInt_eq]
  have hb : |(F64.mulNat geo 1000000).toRat| ≤ 360000000 := by
    have hm := mulNat_abs_le geo 1000000
    have h2 : 2 * ((1000000 : Nat) : ℚ) * |geo.toRat| ≤ 360000000 := by
      have := mul_le_mul_of_nonneg_left h
        (by norm_num : (0 : ℚ) ≤ 2 * ((1000000 : Nat) : ℚ))
      push_cast at this ⊢
      linarith
    linarith
  have habs : |((adjustGeoCoordinates geo : Int) : ℚ)| ≤ 360000000 := by
    rw [h1]
    exact le_trans (abs_truncTowardZero_le _) hb
  have hz : |adjustGeoCoordinates geo| ≤ 360000000 := by exact_mod_cast habs
  obtain ⟨hl, hr⟩ := abs_le.mp hz
  exact ⟨h1, ⟨by omega, by omega⟩, by decide, by decide⟩

/-- C1 witness: the theorem applied to the concrete float64 value 2.0,
with the range hypothesis discharged there. -/
theorem claim_C1_coordinate_codec_witness :
    isInt32 (adjustGeoCoordinates ⟨2, 0⟩) ∧
    adjustGeoCoordinates (floatLit 51507351 1000000) = 51507351 :=
  ⟨(claim_C1_coordinate_codec ⟨2, 0⟩ (by norm_num [F64.toRat])).2.1,
   (claim_C1_coordinate_codec ⟨2, 0⟩ (by norm_num [F64.toRat])).2.2.1⟩

end Brytongo
